import Mathlib

/-!
Verification of the landing-page service core (location generation,
normalization, content fallback, slug derivation, batched publishing).

Strings of the Python source are embedded as lists of Unicode code points
(`Str := List Nat`); the string operations used by the source
(`str.strip`, `str.lower`, `str.upper`, `str.title`, `str.split`,
`str.replace`, `str.rsplit(None, 1)`) are modelled over that
representation with their Python (ASCII) semantics.
-/

set_option autoImplicit false
set_option maxRecDepth 8192

namespace LandingPage

/-- A Python string, embedded as its list of code points. -/
abbrev Str := List Nat

/-- Embed a Lean string literal as a `Str` (list of code points). -/
def pstr (s : String) : Str := s.data.map Char.toNat

/-- ASCII uppercase letter test (Python `str.isupper` on one char). -/
def isUp (c : Nat) : Bool := decide (65 ≤ c ∧ c ≤ 90)

/-- ASCII lowercase letter test. -/
def isLow (c : Nat) : Bool := decide (97 ≤ c ∧ c ≤ 122)

/-- ASCII digit test. -/
def isDigit (c : Nat) : Bool := decide (48 ≤ c ∧ c ≤ 57)

/-- Cased character (has an upper/lower form); drives `str.title`. -/
def isCased (c : Nat) : Bool := isUp c || isLow c

/-- Alphanumeric character (Python `str.isalnum`, ASCII). -/
def isAlnum (c : Nat) : Bool := isUp c || isLow c || isDigit c

/-- Whitespace as recognized by Python `str.strip` / `\s` (ASCII). -/
def isSpace (c : Nat) : Bool := decide (c = 32 ∨ c = 9 ∨ c = 10 ∨ c = 13 ∨ c = 11 ∨ c = 12)

/-- Lower-case one character (Python `str.lower`, ASCII). -/
def toLow (c : Nat) : Nat := if isUp c then c + 32 else c

/-- Upper-case one character (Python `str.upper`, ASCII). -/
def toUp (c : Nat) : Nat := if isLow c then c - 32 else c

/-- Python `s.lower()`. -/
def lower (s : Str) : Str := s.map toLow

/-- Python `s.upper()`. -/
def upper (s : Str) : Str := s.map toUp

/-- Python `s.strip()`: drop whitespace from both ends. -/
def strip (s : Str) : Str :=
  ((s.dropWhile isSpace).reverse.dropWhile isSpace).reverse

/-- The character `str.title` produces at one position, given whether the
previous character was cased. -/
def titleChar (prev : Bool) (c : Nat) : Nat :=
  if isCased c then (if prev then toLow c else toUp c) else c

/-- Worker for Python `str.title`: `prev` records whether the previous
character was cased. -/
def titleAux (prev : Bool) : Str → Str
  | [] => []
  | c :: cs => titleChar prev c :: titleAux (isCased c) cs

/-- Python `s.title()`. -/
def title (s : Str) : Str := titleAux false s

/-- Dedup key used on raw candidate strings: `loc.strip().lower()`. -/
def stripLower (s : Str) : Str := lower (strip s)

/-!  ## Character-level lemmas -/

theorem isSpace_of_isUp {c : Nat} (h : isUp c = true) : isSpace c = false := by
  simp only [isUp, decide_eq_true_eq] at h
  simp only [isSpace, decide_eq_false_iff_not]
  omega

theorem isSpace_of_isLow {c : Nat} (h : isLow c = true) : isSpace c = false := by
  simp only [isLow, decide_eq_true_eq] at h
  simp only [isSpace, decide_eq_false_iff_not]
  omega

theorem toLow_toLow (c : Nat) : toLow (toLow c) = toLow c := by
  unfold toLow
  by_cases h : isUp c = true
  · rw [if_pos h]
    have h32 : isUp (c + 32) = false := by
      simp only [isUp, decide_eq_true_eq] at h
      simp only [isUp, decide_eq_false_iff_not]; omega
    rw [if_neg (by simp [h32])]
  · rw [if_neg h, if_neg h]

theorem toUp_toUp (c : Nat) : toUp (toUp c) = toUp c := by
  unfold toUp
  by_cases h : isLow c = true
  · rw [if_pos h]
    have h32 : isLow (c - 32) = false := by
      simp only [isLow, decide_eq_true_eq] at h
      simp only [isLow, decide_eq_false_iff_not]; omega
    rw [if_neg (by simp [h32])]
  · rw [if_neg h, if_neg h]

theorem isCased_toLow (c : Nat) : isCased (toLow c) = isCased c := by
  unfold toLow
  by_cases h : isUp c = true
  · simp only [h, if_true]
    simp only [isUp, decide_eq_true_eq] at h
    rw [Bool.eq_iff_iff]
    simp only [isCased, isUp, isLow, Bool.or_eq_true, decide_eq_true_eq]
    omega
  · simp only [Bool.not_eq_true] at h
    simp [h]

theorem isCased_toUp (c : Nat) : isCased (toUp c) = isCased c := by
  unfold toUp
  by_cases h : isLow c = true
  · simp only [h, if_true]
    simp only [isLow, decide_eq_true_eq] at h
    rw [Bool.eq_iff_iff]
    simp only [isCased, isUp, isLow, Bool.or_eq_true, decide_eq_true_eq]
    omega
  · simp only [Bool.not_eq_true] at h
    simp [h]

theorem isSpace_toLow (c : Nat) : isSpace (toLow c) = isSpace c := by
  unfold toLow
  by_cases h : isUp c = true
  · simp only [h, if_true]
    simp only [isUp, decide_eq_true_eq] at h
    rw [Bool.eq_iff_iff]
    simp only [isSpace, decide_eq_true_eq]
    omega
  · simp only [Bool.not_eq_true] at h
    simp [h]

theorem isSpace_toUp (c : Nat) : isSpace (toUp c) = isSpace c := by
  unfold toUp
  by_cases h : isLow c = true
  · simp only [h, if_true]
    simp only [isLow, decide_eq_true_eq] at h
    rw [Bool.eq_iff_iff]
    simp only [isSpace, decide_eq_true_eq]
    omega
  · simp only [Bool.not_eq_true] at h
    simp [h]

theorem isSpace_titleChar (prev : Bool) (c : Nat) :
    isSpace (titleChar prev c) = isSpace c := by
  unfold titleChar
  by_cases h : isCased c = true
  · cases prev <;> simp [h, isSpace_toLow, isSpace_toUp]
  · simp only [Bool.not_eq_true] at h
    simp [h]

theorem isCased_titleChar (prev : Bool) (c : Nat) :
    isCased (titleChar prev c) = isCased c := by
  unfold titleChar
  by_cases h : isCased c = true
  · cases prev <;> simp [h, isCased_toLow, isCased_toUp]
  · simp only [Bool.not_eq_true] at h
    simp [h]

theorem titleChar_titleChar (prev : Bool) (c : Nat) :
    titleChar prev (titleChar prev c) = titleChar prev c := by
  unfold titleChar
  by_cases h : isCased c = true
  · cases prev
    · simp [h, isCased_toUp, toUp_toUp]
    · simp [h, isCased_toLow, toLow_toLow]
  · simp only [Bool.not_eq_true] at h
    simp [h]

/-- Case mapping cannot produce a comma (code point 44). -/
theorem titleChar_ne_comma {prev : Bool} {c : Nat} (h : c ≠ 44) :
    titleChar prev c ≠ 44 := by
  unfold titleChar
  by_cases hc : isCased c = true
  · rw [if_pos hc]
    cases prev
    · show toUp c ≠ 44
      unfold toUp
      split
      · rename_i hl
        simp only [isLow, decide_eq_true_eq] at hl
        omega
      · exact h
    · show toLow c ≠ 44
      unfold toLow
      split
      · rename_i hu
        simp only [isUp, decide_eq_true_eq] at hu
        omega
      · exact h
  · rw [if_neg hc]
    exact h

/-!  ## `ContentGenerator._normalize_location` -/

/-- Character is not a comma (code point 44). -/
def notComma (c : Nat) : Bool := decide (c ≠ 44)

/-- Character is not whitespace. -/
def nonSpace (c : Nat) : Bool := !(isSpace c)

/-- Build the `"{city}, {state}"` result of `_normalize_location`: the state
segment is upper-cased when its length is at most 2, else title-cased. -/
def joinCityState (city p1 : Str) : Str :=
  city ++ 44 :: 32 :: (if p1.length ≤ 2 then upper p1 else title p1)

/-- `ContentGenerator._normalize_location` (content_generator.py, lines 31-71):
strip; split on the first comma when present (stripping both parts), else on
the last whitespace run (`rsplit(None, 1)`); title-case the city; upper-case
the state when it has at most 2 characters, else title-case it. -/
def _normalize_location (loc0 : Str) : Str :=
  let loc := strip loc0
  if loc = [] then loc
  else if 44 ∈ loc then
    let p0 := strip (loc.takeWhile notComma)
    let p1 := strip ((loc.dropWhile notComma).drop 1)
    joinCityState (title p0) p1
  else
    let r := loc.reverse.dropWhile isSpace
    let tokRev := r.takeWhile nonSpace
    let restRev := (r.dropWhile nonSpace).dropWhile isSpace
    if restRev = [] then title loc
    else joinCityState (title restRev.reverse) tokRev.reverse

example : _normalize_location (pstr "denver co") = pstr "Denver, CO" := by decide
example : _normalize_location (pstr "denver, co") = pstr "Denver, CO" := by decide
example : _normalize_location (pstr "  boulder, co  ") = pstr "Boulder, CO" := by decide
example : _normalize_location (pstr "castle rock, colorado") = pstr "Castle Rock, Colorado" := by
  decide

/-!  ## String-level lemmas -/

theorem dropWhile_eq_self_of_head {p : Nat → Bool} :
    ∀ {s : Str}, (∀ c ∈ s.head?, p c = false) → s.dropWhile p = s
  | [], _ => rfl
  | c :: t, h => by
    have hc : p c = false := h c rfl
    simp [List.dropWhile, hc]

theorem head_dropWhile_false {p : Nat → Bool} :
    ∀ {s : Str} {c : Nat}, (s.dropWhile p).head? = some c → p c = false := by
  intro s
  induction s with
  | nil => intro c h; simp [List.dropWhile] at h
  | cons a t ih =>
    intro c h
    by_cases ha : p a = true
    · rw [List.dropWhile_cons_of_pos ha] at h
      exact ih h
    · rw [List.dropWhile_cons_of_neg ha] at h
      simp at h
      subst h
      simpa using ha

theorem strip_prefix_core (s : Str) : strip s <+: s.dropWhile isSpace := by
  unfold strip
  have h1 : ((s.dropWhile isSpace).reverse.dropWhile isSpace) <:+
      (s.dropWhile isSpace).reverse := List.dropWhile_suffix _
  have := List.reverse_prefix.mpr h1
  simpa using this

theorem head?_strip_not_space {s : Str} {c : Nat} (h : (strip s).head? = some c) :
    isSpace c = false := by
  rcases strip_prefix_core s with ⟨t, ht⟩
  have hne : strip s ≠ [] := by
    intro hnil
    rw [hnil] at h
    simp at h
  have : (s.dropWhile isSpace).head? = some c := by
    rw [← ht]
    cases hs : strip s with
    | nil => exact absurd hs hne
    | cons a u =>
      rw [hs] at h
      simpa using h
  exact head_dropWhile_false this

theorem getLast?_strip_not_space {s : Str} {c : Nat} (h : (strip s).getLast? = some c) :
    isSpace c = false := by
  unfold strip at h
  rw [List.getLast?_reverse] at h
  exact head_dropWhile_false h

theorem strip_eq_self_of {s : Str}
    (h1 : ∀ c ∈ s.head?, isSpace c = false)
    (h2 : ∀ c ∈ s.getLast?, isSpace c = false) : strip s = s := by
  unfold strip
  rw [dropWhile_eq_self_of_head h1]
  rw [dropWhile_eq_self_of_head (by simpa using h2)]
  exact List.reverse_reverse s

theorem strip_strip (s : Str) : strip (strip s) = strip s :=
  strip_eq_self_of
    (fun _ hc => head?_strip_not_space hc)
    (fun _ hc => getLast?_strip_not_space hc)

theorem strip_nil : strip ([] : Str) = [] := rfl

/-- Dropping a leading space commutes into `strip`. -/
theorem strip_cons_space {c : Nat} {s : Str} (h : isSpace c = true) :
    strip (c :: s) = strip s := by
  unfold strip
  rw [List.dropWhile_cons_of_pos h]

theorem map_isSpace_titleAux (b : Bool) (s : Str) :
    (titleAux b s).map isSpace = s.map isSpace := by
  induction s generalizing b with
  | nil => rfl
  | cons c t ih => simp [titleAux, isSpace_titleChar, ih]

theorem map_isSpace_upper (s : Str) : (upper s).map isSpace = s.map isSpace := by
  unfold upper
  rw [List.map_map]
  exact List.map_congr_left fun c _ => isSpace_toUp c

theorem length_titleAux (b : Bool) (s : Str) : (titleAux b s).length = s.length := by
  induction s generalizing b with
  | nil => rfl
  | cons c t ih => simp [titleAux, ih]

theorem length_upper (s : Str) : (upper s).length = s.length := by
  simp [upper]

theorem titleAux_idem (b : Bool) (s : Str) : titleAux b (titleAux b s) = titleAux b s := by
  induction s generalizing b with
  | nil => rfl
  | cons c t ih =>
    simp only [titleAux, isCased_titleChar, titleChar_titleChar, List.cons.injEq, true_and]
    exact ih (isCased c)

theorem title_title (s : Str) : title (title s) = title s := titleAux_idem false s

theorem upper_upper (s : Str) : upper (upper s) = upper s := by
  unfold upper
  rw [List.map_map]
  exact List.map_congr_left fun c _ => toUp_toUp c

theorem mem_titleAux {b : Bool} {s : Str} {c : Nat} (h : c ∈ titleAux b s) :
    ∃ prev, ∃ d ∈ s, c = titleChar prev d := by
  induction s generalizing b with
  | nil => simp [titleAux] at h
  | cons a t ih =>
    simp only [titleAux, List.mem_cons] at h
    rcases h with h | h
    · exact ⟨b, a, List.mem_cons_self a t, h⟩
    · rcases ih h with ⟨prev, d, hd, hc⟩
      exact ⟨prev, d, List.mem_cons_of_mem a hd, hc⟩

theorem not_comma_titleAux {b : Bool} {s : Str} (h : ∀ c ∈ s, c ≠ 44) :
    ∀ c ∈ titleAux b s, c ≠ 44 := by
  intro c hc
  rcases mem_titleAux hc with ⟨prev, d, hd, rfl⟩
  exact titleChar_ne_comma (h d hd)

theorem mem_strip {s : Str} {c : Nat} (h : c ∈ strip s) : c ∈ s := by
  unfold strip at h
  rw [List.mem_reverse] at h
  have h2 := (List.dropWhile_sublist (l := (s.dropWhile isSpace).reverse) isSpace).mem h
  rw [List.mem_reverse] at h2
  exact (List.dropWhile_sublist isSpace).mem h2

/-- Every end-clean string stays fixed by `strip` after case mapping. -/
theorem strip_titleAux_of_stripped {s : Str} (hs : strip s = s) (b : Bool) :
    strip (titleAux b s) = titleAux b s := by
  apply strip_eq_self_of
  · intro c hc
    cases s with
    | nil => simp [titleAux] at hc
    | cons a t =>
      simp only [titleAux, List.head?_cons, Option.mem_def, Option.some.injEq] at hc
      subst hc
      rw [isSpace_titleChar]
      exact head?_strip_not_space (s := a :: t) (by rw [hs]; rfl)
  · intro c hc
    have hmap := map_isSpace_titleAux b s
    have : ((titleAux b s).getLast?).map isSpace = (s.getLast?).map isSpace := by
      rw [← List.getLast?_map, ← List.getLast?_map, hmap]
    cases hlast : s.getLast? with
    | none =>
      rw [List.getLast?_eq_none_iff] at hlast
      subst hlast
      simp [titleAux] at hc
    | some d =>
      rw [hlast, hc] at this
      simp only [Option.map_some'] at this
      have hd : isSpace d = false := getLast?_strip_not_space (by rw [hs]; exact hlast)
      rw [hd] at this
      exact (Option.some.injEq _ _).mp this

theorem strip_upper_of_stripped {s : Str} (hs : strip s = s) :
    strip (upper s) = upper s := by
  apply strip_eq_self_of
  · intro c hc
    cases s with
    | nil => simp [upper] at hc
    | cons a t =>
      simp only [upper, List.map_cons, List.head?_cons, Option.mem_def, Option.some.injEq] at hc
      subst hc
      rw [isSpace_toUp]
      exact head?_strip_not_space (s := a :: t) (by rw [hs]; rfl)
  · intro c hc
    have hmap := map_isSpace_upper s
    have : ((upper s).getLast?).map isSpace = (s.getLast?).map isSpace := by
      rw [← List.getLast?_map, ← List.getLast?_map, hmap]
    cases hlast : s.getLast? with
    | none =>
      rw [List.getLast?_eq_none_iff] at hlast
      subst hlast
      simp [upper] at hc
    | some d =>
      rw [hlast, hc] at this
      simp only [Option.map_some'] at this
      have hd : isSpace d = false := getLast?_strip_not_space (by rw [hs]; exact hlast)
      rw [hd] at this
      exact (Option.some.injEq _ _).mp this

theorem mem_dropWhile_of_mem {p : Nat → Bool} {c : Nat} :
    ∀ {l : Str}, c ∈ l → p c = false → c ∈ l.dropWhile p := by
  intro l
  induction l with
  | nil => intro h _; exact absurd h (List.not_mem_nil c)
  | cons a t ih =>
    intro hc hpc
    by_cases ha : p a = true
    · rw [List.dropWhile_cons_of_pos ha]
      rcases List.mem_cons.mp hc with rfl | hct
      · rw [ha] at hpc; cases hpc
      · exact ih hct hpc
    · rw [List.dropWhile_cons_of_neg ha]
      exact hc

theorem mem_strip_of_mem {c : Nat} {s : Str} (hc : c ∈ s) (hns : isSpace c = false) :
    c ∈ strip s := by
  unfold strip
  rw [List.mem_reverse]
  apply mem_dropWhile_of_mem _ hns
  rw [List.mem_reverse]
  exact mem_dropWhile_of_mem hc hns

theorem takeWhile_append_stop {p : Nat → Bool} {b : Nat} (hb : p b = false) :
    ∀ {A r : Str}, (∀ c ∈ A, p c = true) →
      (A ++ b :: r).takeWhile p = A ∧ (A ++ b :: r).dropWhile p = b :: r := by
  intro A
  induction A with
  | nil =>
    intro r _
    constructor
    · simp [List.takeWhile, hb]
    · simp [List.dropWhile, hb]
  | cons a t ih =>
    intro r h
    have ha : p a = true := h a (List.mem_cons_self a t)
    have ht : ∀ c ∈ t, p c = true := fun c hc => h c (List.mem_cons_of_mem a hc)
    constructor
    · rw [List.cons_append, List.takeWhile_cons_of_pos ha, (ih ht).1]
    · rw [List.cons_append, List.dropWhile_cons_of_pos ha, (ih ht).2]

/-- Core fixpoint lemma: a string of the shape `city ++ ", " ++ state` with a
clean, comma-free, title-fixed city and a clean, branch-fixed state is a
fixpoint of `_normalize_location`. -/
theorem normalize_city_state {C S : Str}
    (hCs : strip C = C) (hCnc : ∀ c ∈ C, c ≠ 44) (hTC : title C = C)
    (hSs : strip S = S)
    (hbr : (if S.length ≤ 2 then upper S else title S) = S) :
    _normalize_location (C ++ 44 :: 32 :: S) = C ++ 44 :: 32 :: S := by
  have hCp : ∀ c ∈ C, notComma c = true := by
    intro c hc
    simpa [notComma] using hCnc c hc
  have hb44 : notComma 44 = false := by decide
  have hhead : ∀ c ∈ (C ++ 44 :: 32 :: S).head?, isSpace c = false := by
    intro c hc
    cases hC0 : C.head? with
    | none =>
      rw [List.head?_eq_none_iff] at hC0
      subst hC0
      simp at hc
      subst hc
      decide
    | some a =>
      rw [List.head?_append, hC0] at hc
      simp at hc
      subst hc
      exact head?_strip_not_space (by rw [hCs]; exact hC0)
  cases hS0 : S with
  | nil =>
    -- state segment empty: the output carries a trailing space that `strip` removes
    subst hS0
    have hstrip : strip (C ++ 44 :: 32 :: []) = C ++ [44] := by
      unfold strip
      rw [dropWhile_eq_self_of_head hhead]
      have : (C ++ 44 :: 32 :: []).reverse = 32 :: 44 :: C.reverse := by simp
      rw [this, List.dropWhile_cons_of_pos (by decide),
        List.dropWhile_cons_of_neg (by decide)]
      simp
    have hne : strip (C ++ 44 :: 32 :: []) ≠ [] := by
      rw [hstrip]
      simp
    have hmem : 44 ∈ strip (C ++ 44 :: 32 :: []) := by
      rw [hstrip]
      simp
    have hsplit := takeWhile_append_stop hb44 (r := ([] : Str)) hCp
    unfold _normalize_location
    simp only
    rw [if_neg hne, if_pos hmem, hstrip]
    rw [hsplit.1, hsplit.2]
    simp only [List.drop_succ_cons, List.drop_nil, strip_nil, hCs]
    unfold joinCityState
    rw [hTC]
    simp [upper]
  | cons d t =>
    rw [← hS0]
    have hSne : S ≠ [] := by rw [hS0]; simp
    have hlastS : ∃ s2, S.getLast? = some s2 := by
      cases hgl : S.getLast? with
      | none => exact absurd (List.getLast?_eq_none_iff.mp hgl) hSne
      | some s2 => exact ⟨s2, rfl⟩
    obtain ⟨s2, hs2⟩ := hlastS
    have hglast : ∀ c ∈ (C ++ 44 :: 32 :: S).getLast?, isSpace c = false := by
      intro c hc
      have : (C ++ 44 :: 32 :: S).getLast? = some s2 := by
        have h1 : (44 :: 32 :: S) = [44, 32] ++ S := rfl
        rw [List.getLast?_append, h1, List.getLast?_append, hs2]
        rfl
      rw [this] at hc
      simp at hc
      subst hc
      exact getLast?_strip_not_space (by rw [hSs]; exact hs2)
    have hstrip : strip (C ++ 44 :: 32 :: S) = C ++ 44 :: 32 :: S :=
      strip_eq_self_of hhead hglast
    have hne : strip (C ++ 44 :: 32 :: S) ≠ [] := by
      rw [hstrip]
      cases C <;> simp
    have hmem : 44 ∈ strip (C ++ 44 :: 32 :: S) := by
      rw [hstrip]
      simp
    have hsplit := takeWhile_append_stop hb44 (r := 32 :: S) hCp
    unfold _normalize_location
    simp only
    rw [if_neg hne, if_pos hmem, hstrip]
    rw [hsplit.1, hsplit.2]
    simp only [List.drop_succ_cons, List.drop_zero]
    rw [strip_cons_space (by decide), hSs, hCs]
    unfold joinCityState
    rw [hTC, hbr]

/-- The output of the comma branch of `_normalize_location` is a fixpoint. -/
theorem normalize_joinCityState {p0 p1 : Str}
    (h0 : strip p0 = p0) (hnc : ∀ c ∈ p0, c ≠ 44) (h1 : strip p1 = p1) :
    _normalize_location (joinCityState (title p0) p1) = joinCityState (title p0) p1 := by
  have hCs : strip (title p0) = title p0 := strip_titleAux_of_stripped h0 false
  have hCnc : ∀ c ∈ title p0, c ≠ 44 := not_comma_titleAux hnc
  have hTC : title (title p0) = title p0 := title_title p0
  by_cases hlen : p1.length ≤ 2
  · have hSdef : (if p1.length ≤ 2 then upper p1 else title p1) = upper p1 := if_pos hlen
    have hSs : strip (upper p1) = upper p1 := strip_upper_of_stripped h1
    have hbr : (if (upper p1).length ≤ 2 then upper (upper p1) else title (upper p1))
        = upper p1 := by
      rw [if_pos (by rw [length_upper]; exact hlen)]
      exact upper_upper p1
    have := normalize_city_state hCs hCnc hTC hSs hbr
    unfold joinCityState
    rw [hSdef]
    exact this
  · have hSdef : (if p1.length ≤ 2 then upper p1 else title p1) = title p1 := if_neg hlen
    have hSs : strip (title p1) = title p1 := strip_titleAux_of_stripped h1 false
    have hbr : (if (title p1).length ≤ 2 then upper (title p1) else title (title p1))
        = title p1 := by
      rw [if_neg (by unfold title; rw [length_titleAux]; exact hlen)]
      exact title_title p1
    have := normalize_city_state hCs hCnc hTC hSs hbr
    unfold joinCityState
    rw [hSdef]
    exact this

/-- Trimmed name segment (before the first comma) of a comma-containing input. -/
def nameSeg (x : Str) : Str := strip ((strip x).takeWhile notComma)

/-- Trimmed region segment (after the first comma) of a comma-containing input. -/
def regionSeg (x : Str) : Str := strip (((strip x).dropWhile notComma).drop 1)

/-- On comma-containing input, `_normalize_location` takes the comma branch. -/
theorem normalize_comma_shape {x : Str} (hx : 44 ∈ x) :
    _normalize_location x = joinCityState (title (nameSeg x)) (regionSeg x) := by
  have hmem : 44 ∈ strip x := mem_strip_of_mem hx (by decide)
  have hne : strip x ≠ [] := List.ne_nil_of_mem hmem
  unfold _normalize_location
  simp only
  rw [if_neg hne, if_pos hmem]
  rfl

/-- Idempotence of `_normalize_location` on comma-containing input. -/
theorem normalize_idem_of_comma {x : Str} (hx : 44 ∈ x) :
    _normalize_location (_normalize_location x) = _normalize_location x := by
  rw [normalize_comma_shape hx]
  apply normalize_joinCityState
  · exact strip_strip _
  · intro c hc
    have := mem_strip hc
    have := List.mem_takeWhile_imp this
    simpa [notComma] using this
  · exact strip_strip _

/-- **C7**: `_normalize_location` is idempotent —
`normalize (normalize x) = normalize x` for every non-empty input `x`
containing a comma — and canonicalizes the region segment: a trimmed region
of length at most 2 characters is upper-cased, a longer region is
title-cased; in particular `normalize "denver co" = "Denver, CO"` and
`normalize "castle rock, colorado" = "Castle Rock, Colorado"`. -/
theorem C7_normalize_idempotent_region :
    (∀ x : Str, x ≠ [] → 44 ∈ x →
        _normalize_location (_normalize_location x) = _normalize_location x) ∧
    (∀ x : Str, 44 ∈ x →
        _normalize_location x = title (nameSeg x) ++ 44 :: 32 ::
          (if (regionSeg x).length ≤ 2 then upper (regionSeg x)
           else title (regionSeg x))) ∧
    _normalize_location (pstr "denver co") = pstr "Denver, CO" ∧
    _normalize_location (pstr "castle rock, colorado") = pstr "Castle Rock, Colorado" :=
  ⟨fun _ _ hx => normalize_idem_of_comma hx,
   fun _ hx => normalize_comma_shape hx,
   by decide, by decide⟩

/-- Witness for C7 at the concrete input `"castle rock, colorado"`. -/
theorem C7_normalize_idempotent_region_witness :
    pstr "castle rock, colorado" ≠ [] ∧ 44 ∈ pstr "castle rock, colorado" ∧
    _normalize_location (_normalize_location (pstr "castle rock, colorado"))
      = _normalize_location (pstr "castle rock, colorado") :=
  ⟨by decide, by decide,
   C7_normalize_idempotent_region.1 (pstr "castle rock, colorado") (by decide) (by decide)⟩

/-!  ## `ContentGenerator.generate_locations`

The OpenAI chat-completion collaborator is modelled as an oracle outcome per
request: the call may raise (`failure`), return text that fails JSON parsing
or is not a list (`unparsable`), or parse to a list of strings (`parsed`).
`generate_locations` makes at most two requests: the initial one and a single
top-up via `_generate_additional_locations`; the returned `Nat` counts the
requests issued. -/

/-- Outcome of one text-generation request. -/
inductive LLMResult where
  | failure
  | unparsable
  | parsed (locs : List Str)
  deriving DecidableEq, Repr

/-- Errors `generate_locations` can raise: the API exception propagating, or
the `ValueError` for an unparsable/non-list response. -/
inductive GenError where
  | apiFailure
  | parseFailure
  deriving DecidableEq, Repr

/-- Normalize-and-deduplicate loop over `priority_locations`
(content_generator.py, lines 90-99): keep `_normalize_location loc` when its
lower-case form is unseen and it is non-empty. -/
def dedupPriorities (seen : List Str) : List Str → List Str
  | [] => []
  | loc :: rest =>
      if lower (_normalize_location loc) ∉ seen ∧ _normalize_location loc ≠ [] then
        _normalize_location loc
          :: dedupPriorities (lower (_normalize_location loc) :: seen) rest
      else dedupPriorities seen rest

/-- Dedup loop over generated candidates (content_generator.py, lines
182-190 and 263-270): keep `loc.strip()` when `loc.strip().lower()` is
unseen and non-empty. -/
def dedupCandidates (seen : List Str) : List Str → List Str
  | [] => []
  | loc :: rest =>
      if stripLower loc ∉ seen ∧ strip loc ≠ [] then
        strip loc :: dedupCandidates (stripLower loc :: seen) rest
      else dedupCandidates seen rest

/-- `ContentGenerator._generate_additional_locations` (lines 223-277): one
top-up request, deduplicated against `existing` by `strip().lower()`,
truncated to `needed`; every exception is caught and yields `[]`. -/
def _generate_additional_locations (needed : Nat) (existing : List Str)
    (r2 : LLMResult) : List Str :=
  match r2 with
  | .parsed locs => (dedupCandidates (existing.map stripLower) locs).take needed
  | _ => []

/-- `ContentGenerator.generate_locations` (lines 73-221).  `base_city` only
appears in the prompt text sent to the collaborator, so it does not influence
the computation.  Returns the result together with the number of
text-generation requests issued. -/
def generate_locations (base_city : Str) (num_locations : Nat)
    (priority_locations : List Str) (r1 r2 : LLMResult) :
    Except GenError (List Str) × Nat :=
  let _ := base_city
  let P := dedupPriorities [] priority_locations
  if P.length ≥ num_locations then
    (.ok (P.take num_locations), 0)
  else
    let remaining := num_locations - P.length
    match r1 with
    | .failure => (.error .apiFailure, 1)
    | .unparsable => (.error .parseFailure, 1)
    | .parsed locations =>
        let priority_normalized := P.map lower
        let unique0 := dedupCandidates priority_normalized locations
        if unique0.length < remaining then
          let all_so_far := P ++ unique0
          let additional :=
            _generate_additional_locations (remaining - unique0.length) all_so_far r2
          (.ok ((P ++ (unique0 ++ additional)).take num_locations), 2)
        else
          (.ok ((P ++ unique0).take num_locations), 1)

example :
    generate_locations (pstr "Austin, TX") 3 []
      (LLMResult.parsed [pstr "Round Rock, TX", pstr "Round Rock, TX",
        pstr "Cedar Park, TX", pstr "Pflugerville, TX"]) LLMResult.failure
    = (Except.ok [pstr "Round Rock, TX", pstr "Cedar Park, TX",
        pstr "Pflugerville, TX"], 1) := by rfl

example :
    generate_locations (pstr "Denver, CO") 2 [pstr "Denver, CO", pstr "denver, co"]
      (LLMResult.parsed [pstr "Boulder, CO"]) LLMResult.failure
    = (Except.ok [pstr "Denver, CO", pstr "Boulder, CO"], 1) := by rfl

/-- A `take` of an append whose left part is short enough keeps the left part
as a prefix. -/
theorem take_append_left_of_le {α : Type} {P Y : List α} {n : Nat} (h : P.length ≤ n) :
    (P ++ Y).take n = P ++ Y.take (n - P.length) := by
  rw [List.take_append_eq_append_take, List.take_of_length_le h]

/-!  Equation lemmas for `generate_locations`, one per branch. -/

theorem generate_locations_priority_full {base : Str} {num : Nat} {ps : List Str}
    {r1 r2 : LLMResult} (h : (dedupPriorities [] ps).length ≥ num) :
    generate_locations base num ps r1 r2
      = (.ok ((dedupPriorities [] ps).take num), 0) := by
  unfold generate_locations
  simp only
  rw [if_pos h]

theorem generate_locations_failure {base : Str} {num : Nat} {ps : List Str}
    {r2 : LLMResult} (h : (dedupPriorities [] ps).length < num) :
    generate_locations base num ps .failure r2 = (.error .apiFailure, 1) := by
  unfold generate_locations
  simp only
  rw [if_neg (by omega)]

theorem generate_locations_unparsable {base : Str} {num : Nat} {ps : List Str}
    {r2 : LLMResult} (h : (dedupPriorities [] ps).length < num) :
    generate_locations base num ps .unparsable r2 = (.error .parseFailure, 1) := by
  unfold generate_locations
  simp only
  rw [if_neg (by omega)]

theorem generate_locations_parsed {base : Str} {num : Nat} {ps : List Str}
    {locs : List Str} {r2 : LLMResult} (h : (dedupPriorities [] ps).length < num) :
    generate_locations base num ps (.parsed locs) r2
      = (if (dedupCandidates ((dedupPriorities [] ps).map lower) locs).length
            < num - (dedupPriorities [] ps).length
         then
           (.ok (((dedupPriorities [] ps)
              ++ (dedupCandidates ((dedupPriorities [] ps).map lower) locs
                  ++ _generate_additional_locations
                      (num - (dedupPriorities [] ps).length
                        - (dedupCandidates ((dedupPriorities [] ps).map lower) locs).length)
                      ((dedupPriorities [] ps)
                        ++ dedupCandidates ((dedupPriorities [] ps).map lower) locs)
                      r2)).take num), 2)
         else
           (.ok (((dedupPriorities [] ps)
              ++ dedupCandidates ((dedupPriorities [] ps).map lower) locs).take num), 1)) := by
  unfold generate_locations
  simp only
  rw [if_neg (by omega)]

/-- **C4**: the normalized order-preserving deduplication `P` of the priority
list heads the result: if `|P| >= n` the result is exactly `P.take n` and no
text-generation request is issued; otherwise `P` is a prefix of the result,
the result is `P` followed by generated candidates truncated to `n`, and its
length is at most `n`. -/
theorem C4_priority_head (base : Str) (num : Nat) (ps : List Str)
    (r1 r2 : LLMResult) :
    ((dedupPriorities [] ps).length ≥ num →
      generate_locations base num ps r1 r2
        = (.ok ((dedupPriorities [] ps).take num), 0)) ∧
    ((dedupPriorities [] ps).length < num →
      ∀ res k, generate_locations base num ps r1 r2 = (.ok res, k) →
        (dedupPriorities [] ps) <+: res ∧ res.length ≤ num ∧
        ∃ gen, res = ((dedupPriorities [] ps) ++ gen).take num) := by
  constructor
  · intro h
    exact generate_locations_priority_full h
  · intro h res k hres
    cases r1 with
    | failure => rw [generate_locations_failure h] at hres; simp at hres
    | unparsable => rw [generate_locations_unparsable h] at hres; simp at hres
    | parsed locs =>
      rw [generate_locations_parsed h] at hres
      by_cases hlt :
          (dedupCandidates ((dedupPriorities [] ps).map lower) locs).length
            < num - (dedupPriorities [] ps).length
      · rw [if_pos hlt] at hres
        simp only [Prod.mk.injEq, Except.ok.injEq] at hres
        obtain ⟨h1, -⟩ := hres
        subst h1
        refine ⟨?_, List.length_take_le _ _, ⟨_, rfl⟩⟩
        rw [take_append_left_of_le (by omega)]
        exact List.prefix_append _ _
      · rw [if_neg hlt] at hres
        simp only [Prod.mk.injEq, Except.ok.injEq] at hres
        obtain ⟨h1, -⟩ := hres
        subst h1
        refine ⟨?_, List.length_take_le _ _, ⟨_, rfl⟩⟩
        rw [take_append_left_of_le (by omega)]
        exact List.prefix_append _ _

/-- Witness for C4: both branches exercised at concrete inputs. -/
theorem C4_priority_head_witness :
    generate_locations (pstr "Denver, CO") 1
        [pstr "Boulder, CO", pstr "Golden, CO"] LLMResult.failure LLMResult.failure
      = (.ok [pstr "Boulder, CO"], 0) ∧
    (dedupPriorities [] [pstr "Boulder, CO"]) <+:
      [pstr "Boulder, CO", pstr "Longmont, CO"] := by
  constructor
  · exact (C4_priority_head (pstr "Denver, CO") 1
      [pstr "Boulder, CO", pstr "Golden, CO"] LLMResult.failure LLMResult.failure).1
      (by decide)
  · exact ((C4_priority_head (pstr "Denver, CO") 2 [pstr "Boulder, CO"]
      (LLMResult.parsed [pstr "Longmont, CO"]) LLMResult.failure).2 (by decide)
      [pstr "Boulder, CO", pstr "Longmont, CO"] 1 (by rfl)).1

/-- **C3 counterexample**: the claim says a generation error is raised exactly
when the collaborator fails on BOTH the initial and the top-up attempt, but
an unparsable initial response raises immediately — here the top-up would
parse fine, yet the call errors after a single request (the top-up is never
issued). -/
theorem C3_counterexample :
    generate_locations (pstr "Denver, CO") 1 [] LLMResult.unparsable
        (LLMResult.parsed [pstr "Boulder, CO"])
      = (Except.error GenError.parseFailure, 1) := by rfl

/-- **C3 (amended)**: `generate_locations` raises exactly when the priority
locations do not fill the request and the INITIAL attempt fails irrecoverably
or returns unparsable output; the top-up outcome never causes an error, a
shortfall after the single top-up returns a shorter-than-requested sequence
with an `ok` result, and at most two generation requests are ever issued. -/
theorem C3_raises_iff_initial_fails (base : Str) (num : Nat) (ps : List Str)
    (r1 r2 : LLMResult) :
    ((∃ e, (generate_locations base num ps r1 r2).1 = Except.error e) ↔
      ((dedupPriorities [] ps).length < num ∧
        (r1 = LLMResult.failure ∨ r1 = LLMResult.unparsable))) ∧
    (generate_locations base num ps r1 r2).2 ≤ 2 := by
  by_cases hfull : (dedupPriorities [] ps).length ≥ num
  · rw [generate_locations_priority_full hfull]
    constructor
    · simp
      omega
    · simp
  · have hlt : (dedupPriorities [] ps).length < num := by omega
    cases r1 with
    | failure =>
      rw [generate_locations_failure hlt]
      exact ⟨by simp [hlt], by simp⟩
    | unparsable =>
      rw [generate_locations_unparsable hlt]
      exact ⟨by simp [hlt], by simp⟩
    | parsed locs =>
      rw [generate_locations_parsed hlt]
      constructor
      · constructor
        · rintro ⟨e, he⟩
          split at he <;> simp at he
        · rintro ⟨-, h | h⟩ <;> cases h
      · split <;> simp

/-!  Provenance of result elements. -/

theorem mem_dedupPriorities {x : Str} :
    ∀ {seen : List Str} {ps : List Str}, x ∈ dedupPriorities seen ps →
      ∃ p ∈ ps, x = _normalize_location p := by
  intro seen ps
  induction ps generalizing seen with
  | nil => intro h; simp [dedupPriorities] at h
  | cons p rest ih =>
    intro h
    unfold dedupPriorities at h
    split at h
    · rcases List.mem_cons.mp h with rfl | h2
      · exact ⟨p, List.mem_cons_self p rest, rfl⟩
      · rcases ih h2 with ⟨q, hq, hx⟩
        exact ⟨q, List.mem_cons_of_mem p hq, hx⟩
    · rcases ih h with ⟨q, hq, hx⟩
      exact ⟨q, List.mem_cons_of_mem p hq, hx⟩

theorem mem_dedupCandidates {x : Str} :
    ∀ {seen : List Str} {locs : List Str}, x ∈ dedupCandidates seen locs →
      ∃ c ∈ locs, x = strip c := by
  intro seen locs
  induction locs generalizing seen with
  | nil => intro h; simp [dedupCandidates] at h
  | cons c rest ih =>
    intro h
    unfold dedupCandidates at h
    split at h
    · rcases List.mem_cons.mp h with rfl | h2
      · exact ⟨c, List.mem_cons_self c rest, rfl⟩
      · rcases ih h2 with ⟨q, hq, hx⟩
        exact ⟨q, List.mem_cons_of_mem c hq, hx⟩
    · rcases ih h with ⟨q, hq, hx⟩
      exact ⟨q, List.mem_cons_of_mem c hq, hx⟩

/-- Every element of a successful `generate_locations` result is either a
normalized priority entry or the trimmed form of a candidate returned by one
of the (at most two) generation requests. -/
theorem generate_locations_mem_provenance {base : Str} {num : Nat}
    {ps : List Str} {r1 r2 : LLMResult} {res : List Str} {k : Nat}
    (hres : generate_locations base num ps r1 r2 = (.ok res, k)) :
    ∀ x ∈ res, (∃ p ∈ ps, x = _normalize_location p) ∨
      (∃ locs, r1 = LLMResult.parsed locs ∧ ∃ c ∈ locs, x = strip c) ∨
      (∃ locs, r2 = LLMResult.parsed locs ∧ ∃ c ∈ locs, x = strip c) := by
  intro x hx
  by_cases hfull : (dedupPriorities [] ps).length ≥ num
  · rw [generate_locations_priority_full hfull] at hres
    simp only [Prod.mk.injEq, Except.ok.injEq] at hres
    obtain ⟨h1, -⟩ := hres
    subst h1
    have := (List.take_sublist _ _).subset hx
    exact Or.inl (mem_dedupPriorities this)
  · have hlt : (dedupPriorities [] ps).length < num := by omega
    cases r1 with
    | failure => rw [generate_locations_failure hlt] at hres; simp at hres
    | unparsable => rw [generate_locations_unparsable hlt] at hres; simp at hres
    | parsed locs =>
      rw [generate_locations_parsed hlt] at hres
      split at hres <;>
        simp only [Prod.mk.injEq, Except.ok.injEq] at hres <;>
        obtain ⟨h1, -⟩ := hres <;>
        subst h1
      · have hx2 := (List.take_sublist _ _).subset hx
        rcases List.mem_append.mp hx2 with hP | hrest
        · exact Or.inl (mem_dedupPriorities hP)
        · rcases List.mem_append.mp hrest with hU | hA
          · exact Or.inr (Or.inl ⟨locs, rfl, mem_dedupCandidates hU⟩)
          · unfold _generate_additional_locations at hA
            cases r2 with
            | parsed locs2 =>
              have := (List.take_sublist _ _).subset hA
              exact Or.inr (Or.inr ⟨locs2, rfl, mem_dedupCandidates this⟩)
            | failure => simp at hA
            | unparsable => simp at hA
      · have hx2 := (List.take_sublist _ _).subset hx
        rcases List.mem_append.mp hx2 with hP | hU
        · exact Or.inl (mem_dedupPriorities hP)
        · exact Or.inr (Or.inl ⟨locs, rfl, mem_dedupCandidates hU⟩)

/-- **C5 counterexample**: nothing in the code filters the anchor out of the
collaborator's candidates — the prompt merely asks the model not to return
it.  Here the anchor is `"Denver, CO"`, the candidate list contains exactly
the anchor, and the returned sequence contains the anchor. -/
theorem C5_counterexample :
    (generate_locations (pstr "Denver, CO") 1 []
        (LLMResult.parsed [pstr "Denver, CO"]) LLMResult.failure).1
      = Except.ok [pstr "Denver, CO"] ∧
    pstr "Denver, CO" ∈ [pstr "Denver, CO"] :=
  ⟨by rfl, by decide⟩

/-- **C5 (amended)**: the anchor (`base_city`) is excluded only by the prompt
text, not by code; the result avoids the anchor exactly when the anchor is
not produced by any of the inputs — i.e. whenever no priority entry
normalizes to the anchor and no candidate of either response trims to the
anchor, the anchor is not a member of the result. -/
theorem C5_anchor_not_member (base : Str) (num : Nat) (ps : List Str)
    (r1 r2 : LLMResult) (res : List Str) (k : Nat)
    (hres : generate_locations base num ps r1 r2 = (.ok res, k))
    (hp : ∀ p ∈ ps, _normalize_location p ≠ base)
    (h1 : ∀ locs, r1 = LLMResult.parsed locs → ∀ c ∈ locs, strip c ≠ base)
    (h2 : ∀ locs, r2 = LLMResult.parsed locs → ∀ c ∈ locs, strip c ≠ base) :
    base ∉ res := by
  intro hmem
  rcases generate_locations_mem_provenance hres base hmem with
    ⟨p, hpm, hb⟩ | ⟨locs, hr, c, hc, hb⟩ | ⟨locs, hr, c, hc, hb⟩
  · exact hp p hpm hb.symm
  · exact h1 locs hr c hc hb.symm
  · exact h2 locs hr c hc hb.symm

/-- Witness for C5 (amended) at concrete inputs. -/
theorem C5_anchor_not_member_witness :
    pstr "Denver, CO" ∉ [pstr "Boulder, CO"] :=
  C5_anchor_not_member (pstr "Denver, CO") 1 []
    (LLMResult.parsed [pstr "Boulder, CO"]) LLMResult.failure
    [pstr "Boulder, CO"] 1 (by rfl)
    (by intro p hp; simp at hp)
    (by
      intro locs hr c hc
      cases hr
      simp at hc
      subst hc
      decide)
    (by intro locs hr; cases hr)

/-!  ## C1: deduplication invariants -/

/-- Canonical form in the sense of the specification: normalize via
`_normalize_location`, trim whitespace, compare case-insensitively. -/
def canonKey (s : Str) : Str := lower (strip (_normalize_location s))

theorem stripLower_strip (s : Str) : stripLower (strip s) = stripLower s := by
  unfold stripLower
  rw [strip_strip]

theorem dedupCandidates_not_seen {x : Str} :
    ∀ {seen locs : List Str}, x ∈ dedupCandidates seen locs →
      stripLower x ∉ seen ∧ strip x = x := by
  intro seen locs
  induction locs generalizing seen with
  | nil => intro h; simp [dedupCandidates] at h
  | cons c rest ih =>
    intro h
    unfold dedupCandidates at h
    split at h
    · rename_i hcond
      rcases List.mem_cons.mp h with rfl | h2
      · refine ⟨?_, strip_strip c⟩
        rw [stripLower_strip]
        exact hcond.1
      · obtain ⟨hns, hfix⟩ := ih h2
        exact ⟨fun hm => hns (List.mem_cons_of_mem _ hm), hfix⟩
    · exact ih h

theorem dedupCandidates_pairwise :
    ∀ {seen locs : List Str},
      (dedupCandidates seen locs).Pairwise (fun a b => stripLower a ≠ stripLower b) := by
  intro seen locs
  induction locs generalizing seen with
  | nil => simp [dedupCandidates]
  | cons c rest ih =>
    unfold dedupCandidates
    split
    · rename_i hcond
      refine List.Pairwise.cons ?_ ih
      intro b hb heq
      have := (dedupCandidates_not_seen hb).1
      rw [← heq, stripLower_strip] at this
      exact this (List.mem_cons_self _ _)
    · exact ih

theorem dedupPriorities_not_seen {x : Str} :
    ∀ {seen ps : List Str}, x ∈ dedupPriorities seen ps → lower x ∉ seen := by
  intro seen ps
  induction ps generalizing seen with
  | nil => intro h; simp [dedupPriorities] at h
  | cons p rest ih =>
    intro h
    unfold dedupPriorities at h
    split at h
    · rename_i hcond
      rcases List.mem_cons.mp h with rfl | h2
      · exact hcond.1
      · exact fun hm => ih h2 (List.mem_cons_of_mem _ hm)
    · exact ih h

theorem dedupPriorities_pairwise :
    ∀ {seen ps : List Str},
      (dedupPriorities seen ps).Pairwise (fun a b => lower a ≠ lower b) := by
  intro seen ps
  induction ps generalizing seen with
  | nil => simp [dedupPriorities]
  | cons p rest ih =>
    unfold dedupPriorities
    split
    · refine List.Pairwise.cons ?_ ih
      intro b hb heq
      have := dedupPriorities_not_seen hb
      rw [← heq] at this
      exact this (List.mem_cons_self _ _)
    · exact ih

/-- **C1 counterexample**: generated candidates are deduplicated against the
priorities by `strip().lower()` of the raw candidate string, not by canonical
form.  With priority `"Denver, CO"` and candidate `"denver co"`, both survive
into the result although their canonical forms coincide — refuting the claim
that no two result elements are canonical-form equal. -/
theorem C1_counterexample :
    (generate_locations (pstr "Denver, CO") 2 [pstr "Denver, CO"]
        (LLMResult.parsed [pstr "denver co"]) LLMResult.failure).1
      = Except.ok [pstr "Denver, CO", pstr "denver co"] ∧
    canonKey (pstr "Denver, CO") = canonKey (pstr "denver co") ∧
    pstr "Denver, CO" ≠ pstr "denver co" :=
  ⟨by rfl, by decide, by decide⟩

/-- **C1 (amended)**: the deduplication key is the trimmed lower-cased raw
string (`strip().lower()`), not the canonical form; provided every priority
entry has a whitespace-trimmed normalized form, no two elements of the result
share that trimmed case-insensitive key.  (Canonical-form equality fails: a
candidate like `"denver co"` may coexist with priority `"Denver, CO"`.) -/
theorem C1_no_duplicate_trimmed_caseless (base : Str) (num : Nat) (ps : List Str)
    (r1 r2 : LLMResult) (res : List Str) (k : Nat)
    (hps : ∀ p ∈ ps, strip (_normalize_location p) = _normalize_location p)
    (hres : generate_locations base num ps r1 r2 = (.ok res, k)) :
    res.Pairwise (fun a b => stripLower a ≠ stripLower b) := by
  have hPfix : ∀ x ∈ dedupPriorities [] ps, strip x = x := by
    intro x hx
    rcases mem_dedupPriorities hx with ⟨p, hp, rfl⟩
    exact hps p hp
  have hPkey : ∀ x ∈ dedupPriorities [] ps, stripLower x = lower x := by
    intro x hx
    unfold stripLower
    rw [hPfix x hx]
  have hPpw : (dedupPriorities [] ps).Pairwise
      (fun a b => stripLower a ≠ stripLower b) := by
    refine List.Pairwise.imp_of_mem ?_ (@dedupPriorities_pairwise [] ps)
    intro a b ha hb h
    rw [hPkey a ha, hPkey b hb]
    exact h
  by_cases hfull : (dedupPriorities [] ps).length ≥ num
  · rw [generate_locations_priority_full hfull] at hres
    simp only [Prod.mk.injEq, Except.ok.injEq] at hres
    obtain ⟨h1, -⟩ := hres
    subst h1
    exact hPpw.sublist (List.take_sublist _ _)
  · have hlt : (dedupPriorities [] ps).length < num := by omega
    cases r1 with
    | failure => rw [generate_locations_failure hlt] at hres; simp at hres
    | unparsable => rw [generate_locations_unparsable hlt] at hres; simp at hres
    | parsed locs =>
      rw [generate_locations_parsed hlt] at hres
      have hPU : ∀ a ∈ dedupPriorities [] ps,
          ∀ b ∈ dedupCandidates ((dedupPriorities [] ps).map lower) locs,
            stripLower a ≠ stripLower b := by
        intro a ha b hb heq
        have hbns := (dedupCandidates_not_seen hb).1
        rw [← heq, hPkey a ha] at hbns
        exact hbns (List.mem_map_of_mem lower ha)
      split at hres <;>
        simp only [Prod.mk.injEq, Except.ok.injEq] at hres <;>
        obtain ⟨h1, -⟩ := hres <;>
        subst h1
      · refine List.Pairwise.sublist (List.take_sublist _ _) ?_
        rw [List.pairwise_append]
        refine ⟨hPpw, ?_, ?_⟩
        · rw [List.pairwise_append]
          refine ⟨dedupCandidates_pairwise, ?_, ?_⟩
          · unfold _generate_additional_locations
            cases r2 with
            | parsed locs2 =>
              exact (dedupCandidates_pairwise).sublist (List.take_sublist _ _)
            | failure => simp
            | unparsable => simp
          · -- candidates of round one vs top-up additions
            intro a ha b hb heq
            unfold _generate_additional_locations at hb
            cases r2 with
            | parsed locs2 =>
              have hb2 := (List.take_sublist _ _).subset hb
              have hbns := (dedupCandidates_not_seen hb2).1
              rw [← heq] at hbns
              apply hbns
              rw [List.map_append]
              exact List.mem_append_right _ (List.mem_map_of_mem stripLower ha)
            | failure => simp at hb
            | unparsable => simp at hb
        · -- priorities vs all generated
          intro a ha b hb
          rcases List.mem_append.mp hb with hb1 | hb2
          · exact hPU a ha b hb1
          · intro heq
            unfold _generate_additional_locations at hb2
            cases r2 with
            | parsed locs2 =>
              have hb3 := (List.take_sublist _ _).subset hb2
              have hbns := (dedupCandidates_not_seen hb3).1
              rw [← heq, hPkey a ha] at hbns
              apply hbns
              rw [List.map_append]
              refine List.mem_append_left _ ?_
              have : stripLower a = lower a := hPkey a ha
              rw [← this]
              exact List.mem_map_of_mem stripLower ha
            | failure => simp at hb2
            | unparsable => simp at hb2
      · refine List.Pairwise.sublist (List.take_sublist _ _) ?_
        rw [List.pairwise_append]
        exact ⟨hPpw, dedupCandidates_pairwise, hPU⟩

/-- Witness for C1 (amended) at concrete inputs. -/
theorem C1_no_duplicate_trimmed_caseless_witness :
    (∀ p ∈ [pstr "Denver, CO"],
        strip (_normalize_location p) = _normalize_location p) ∧
    ([pstr "Denver, CO", pstr "Boulder, CO"] : List Str).Pairwise
      (fun a b => stripLower a ≠ stripLower b) :=
  ⟨by decide,
   C1_no_duplicate_trimmed_caseless (pstr "Denver, CO") 2 [pstr "Denver, CO"]
     (LLMResult.parsed [pstr "Boulder, CO"]) LLMResult.failure
     [pstr "Denver, CO", pstr "Boulder, CO"] 1 (by decide) (by rfl)⟩

/-!  ## `ContentGenerator.generate_content`

The prompt-building inputs `keywords`, `tone` and `length` only shape the
text sent to the collaborator, so they do not appear in the embedding; the
collaborator outcome is an oracle (`ContentResult`).  Python `hash` is
modelled as an oracle function `h : Str → Int` (it is a fixed function of
its input within one process run). -/

theorem length_dropWhile_le {α : Type} (p : α → Bool) (l : List α) :
    (l.dropWhile p).length ≤ l.length :=
  (List.dropWhile_sublist p).length_le

/-- `re.sub(pat+, rep)`-style collapsing: replace each maximal run of
characters satisfying `p` by the single character `rep`. -/
def collapseRunsAux (p : Nat → Bool) (rep : Nat) (inRun : Bool) : Str → Str
  | [] => []
  | c :: rest =>
      if p c then
        if inRun then collapseRunsAux p rep true rest
        else rep :: collapseRunsAux p rep true rest
      else c :: collapseRunsAux p rep false rest

def collapseRuns (p : Nat → Bool) (rep : Nat) (s : Str) : Str :=
  collapseRunsAux p rep false s

/-- Fuel-driven worker for Python `str.replace`: each step consumes at least
one character, so fuel equal to the string length suffices. -/
def pyReplaceFuel (pat rep : Str) : Nat → Str → Str
  | _, [] => []
  | 0, _ => []
  | fuel + 1, c :: rest =>
      if pat ≠ [] ∧ pat.isPrefixOf (c :: rest) then
        rep ++ pyReplaceFuel pat rep fuel ((c :: rest).drop pat.length)
      else
        c :: pyReplaceFuel pat rep fuel rest

/-- Python `s.replace(pat, rep)`: all non-overlapping occurrences, scanning
left to right (defined for non-empty `pat`; an empty `pat` never matches
here, unlike Python). -/
def pyReplace (pat rep s : Str) : Str := pyReplaceFuel pat rep s.length s

/-- Python `s.split(sep)` (single-character separator). -/
def splitOn (sep : Nat) : Str → List Str
  | [] => [[]]
  | c :: rest =>
      if c = sep then [] :: splitOn sep rest
      else
        match splitOn sep rest with
        | [] => [[c]]
        | p :: ps => (c :: p) :: ps

/-- Python `sep.join(parts)`. -/
def joinSep (sep : Str) : List Str → Str
  | [] => []
  | [p] => p
  | p :: ps => p ++ sep ++ joinSep sep ps

/-- Regex `\]` reachable without crossing a newline (`.` does not match
newline). -/
def findCloseNoNL : Str → Bool
  | [] => false
  | c :: rest => if c = 93 then true else if c = 10 then false else findCloseNoNL rest

/-- Regex `\[.*?\]` matches somewhere in the string. -/
def hasBracketPair : Str → Bool
  | [] => false
  | c :: rest => (decide (c = 91) && findCloseNoNL rest) || hasBracketPair rest

/-- `here` reachable without crossing a newline (on lower-cased text). -/
def findHereNoNL : Str → Bool
  | [] => false
  | c :: rest =>
      if (pstr "here").isPrefixOf (c :: rest) then true
      else if c = 10 then false
      else findHereNoNL rest

/-- Regex `INSERT.*?HERE` (ignore-case; run on lower-cased text). -/
def hasInsertHere : Str → Bool
  | [] => false
  | c :: rest =>
      ((pstr "insert").isPrefixOf (c :: rest) && findHereNoNL ((c :: rest).drop 6))
        || hasInsertHere rest

/-- Three consecutive digits at the head. -/
def digit3At : Str → Bool
  | a :: b :: c :: _ => isDigit a && isDigit b && isDigit c
  | _ => false

/-- Regex `Contact us at \d{3}` (ignore-case; run on lower-cased text). -/
def hasContactPattern : Str → Bool
  | [] => false
  | c :: rest =>
      ((pstr "contact us at ").isPrefixOf (c :: rest) && digit3At ((c :: rest).drop 14))
        || hasContactPattern rest

/-- `ContentGenerator.validate_content` (content_generator.py, lines 502-530). -/
def validate_content (content : Str) : Bool :=
  if content.length < 50 then false
  else if content.getLast? ≠ some 46 then false
  else if hasBracketPair content then false
  else if hasInsertHere (lower content) then false
  else if (pstr "todo") <:+: (lower content) then false
  else if (pstr "lorem ipsum") <:+: (lower content) then false
  else if hasContactPattern (lower content) then false
  else true

example : validate_content (pstr "This is professional plumbing service in Denver, Colorado. We provide quality work.") = true := by decide
example : validate_content (pstr "Short.") = false := by decide
example : validate_content (pstr "This is some content without proper punctuation") = false := by decide
example : validate_content (pstr "A paragraph that is long enough to pass but contains [TODO] markers inside of it.") = false := by decide

/-- `ContentGenerator._post_process_content` (content_generator.py,
lines 377-412): strip markdown emphasis characters, collapse newline and
whitespace runs, trim, append a service/location mention when absent, and
truncate to four sentences when more than five. -/
def _post_process_content (content service location : Str) : Str :=
  let c1 := content.filter
    (fun c => !(decide (c = 42) || decide (c = 95) || decide (c = 35)))
  let c2 := collapseRuns (fun c => decide (c = 10)) 32 c1
  let c3 := collapseRuns isSpace 32 c2
  let c4 := strip c3
  let c5 :=
    if (lower service) <:+: (lower c4) then c4
    else c4 ++ pstr " Our " ++ service
      ++ pstr " services are designed to meet your specific needs."
  let c6 :=
    if (lower location) <:+: (lower c5) then c5
    else c5 ++ pstr " Serving the " ++ location
      ++ pstr " area with dedication and expertise."
  let sentences := splitOn 46 c6
  if sentences.length > 5 then joinSep (pstr ". ") (sentences.take 4) ++ pstr "."
  else c6

/-- The three fixed fallback paragraph templates (content_generator.py,
lines 427-442), with `service`/`location` substituted. -/
def fallbackTemplates (service location : Str) : List Str :=
  [pstr "Finding reliable " ++ service ++ pstr " in " ++ location
      ++ pstr " requires expertise and local knowledge. Our experienced professionals understand the unique needs of the "
      ++ location
      ++ pstr " area and deliver solutions tailored to your specific requirements. With a commitment to quality and customer satisfaction, we ensure every project meets the highest standards.",
   pstr "When it comes to " ++ service ++ pstr " in " ++ location
      ++ pstr ", quality and reliability matter most. Our team brings years of experience serving the "
      ++ location
      ++ pstr " community with professional services that exceed expectations. We combine industry best practices with local insights to deliver results that last.",
   pstr "Professional " ++ service ++ pstr " services in " ++ location
      ++ pstr " designed to meet your needs. We understand that every client has unique requirements, which is why we offer customized solutions backed by expertise and dedication. Our "
      ++ location
      ++ pstr " team is committed to delivering exceptional results on time and within budget."]

/-- Code point of the apostrophe character. -/
def apostrophe : Nat := 39

/-- Company-name substitution applied to a chosen template
(content_generator.py, lines 447-449): replace every `Our` by
`{company}` + apostrophe + `s`, then every `We ` by `At {company}, we `. -/
def substCompany (company_name : Option Str) (content : Str) : Str :=
  match company_name with
  | none => content
  | some c =>
      pyReplace (pstr "We ") (pstr "At " ++ c ++ pstr ", we ")
        (pyReplace (pstr "Our") (c ++ apostrophe :: pstr "s") content)

/-- `ContentGenerator._generate_fallback_content` (lines 414-451): pick one
of the three templates by `hash(service + location) % 3` (Python `%` on a
possibly negative hash, hence `Int.emod`), then substitute the company
name. -/
def _generate_fallback_content (service location : Str)
    (company_name : Option Str) (h : Str → Int) : Str :=
  let templates := fallbackTemplates service location
  let idx := ((h (service ++ location)).emod (templates.length : Int)).toNat
  substCompany company_name (templates.getD idx [])

/-- Outcome of the content-generation request. -/
inductive ContentResult where
  | failure
  | text (s : Str)
  deriving DecidableEq, Repr

/-- `ContentGenerator.generate_content` (lines 279-337): on success the
response is stripped, post-processed, and validated — failing validation
falls back to the template text; any collaborator exception also falls back.
It always returns a string. -/
def generate_content (service location : Str) (company_name : Option Str)
    (h : Str → Int) (llm : ContentResult) : Str :=
  match llm with
  | .failure => _generate_fallback_content service location company_name h
  | .text raw =>
      let content := _post_process_content (strip raw) service location
      if validate_content content then content
      else _generate_fallback_content service location company_name h

/-- **C6**: `generate_content` is total (it is a function into `Str`); on any
collaborator failure, and on any generated text failing the validation gate,
it returns the fallback; and the fallback deterministically selects one of
the three fixed templates by `hash(service + location) % 3` (index < 3) with
service, location and company name substituted in. -/
theorem C6_generate_content_fallback (service location : Str)
    (company : Option Str) (h : Str → Int) (llm : ContentResult) :
    (llm = ContentResult.failure →
      generate_content service location company h llm
        = _generate_fallback_content service location company h) ∧
    (∀ raw, llm = ContentResult.text raw →
      validate_content (_post_process_content (strip raw) service location) = false →
      generate_content service location company h llm
        = _generate_fallback_content service location company h) ∧
    (((h (service ++ location)).emod 3).toNat < 3 ∧
      _generate_fallback_content service location company h
        = substCompany company ((fallbackTemplates service location).getD
            (((h (service ++ location)).emod 3).toNat) [])) := by
  refine ⟨?_, ?_, ?_, rfl⟩
  · rintro rfl
    rfl
  · rintro raw rfl hval
    unfold generate_content
    simp only [hval]
    rw [if_neg]
    simp
  · have h1 : (0 : Int) ≤ (h (service ++ location)).emod 3 :=
      Int.emod_nonneg _ (by decide)
    have h2 : (h (service ++ location)).emod 3 < 3 :=
      Int.emod_lt_of_pos _ (by decide)
    omega

/-- Fixed example hash oracle (negative, to exercise Python `%` semantics). -/
def exampleHash : Str → Int := fun _ => -5

/-- Witness for C6 at concrete inputs (collaborator failure branch). -/
theorem C6_generate_content_fallback_witness :
    generate_content (pstr "plumbing") (pstr "Denver, CO") (some (pstr "Acme"))
        exampleHash ContentResult.failure
      = _generate_fallback_content (pstr "plumbing") (pstr "Denver, CO")
          (some (pstr "Acme")) exampleHash :=
  (C6_generate_content_fallback (pstr "plumbing") (pstr "Denver, CO")
    (some (pstr "Acme")) exampleHash ContentResult.failure).1 rfl

/-!  ## Slug derivation (C8)

Two distinct derivations exist in the source: `create_slug` (app.py lines
136-138 and scripts/oneoff_template.py lines 70-76) filters non-alphanumerics
and collapses hyphens; the lambda (lambda_function.py lines 277-279) only
replaces `", "`/`","`/`" "` and prefixes `best-{industry}-`. -/

/-- `create_slug` (app.py / oneoff_template.py): lower-case, replace
`", "` and `" "` by `-`, keep only alphanumerics and `-`, then drop empty
segments between hyphens. -/
def create_slug (location : Str) : Str :=
  let s1 := lower location
  let s2 := pyReplace (pstr ", ") (pstr "-") s1
  let s3 := pyReplace (pstr " ") (pstr "-") s2
  let s4 := s3.filter (fun c => isAlnum c || decide (c = 45))
  joinSep (pstr "-") ((splitOn 45 s4).filter (fun p => p ≠ []))

/-- `clean_location` of the lambda (lambda_function.py line 278). -/
def clean_location (location : Str) : Str :=
  pyReplace (pstr " ") (pstr "-")
    (pyReplace (pstr ",") [] (pyReplace (pstr ", ") (pstr "-") (lower location)))

/-- `page_url` of the lambda (lambda_function.py line 279):
`f"best-{industry.lower().replace(' ', '-')}-{clean_location}"`. -/
def lambda_page_item_url (industry location : Str) : Str :=
  pstr "best-" ++ pyReplace (pstr " ") (pstr "-") (lower industry)
    ++ pstr "-" ++ clean_location location

example : create_slug (pstr "Castle Rock, CO") = pstr "castle-rock-co" := by rfl
example : lambda_page_item_url (pstr "x") (pstr "Denver  CO")
    = pstr "best-x-denver--co" := by rfl

theorem isUp_toLow (c : Nat) : isUp (toLow c) = false := by
  unfold toLow
  by_cases h : isUp c = true
  · rw [if_pos h]
    simp only [isUp, decide_eq_true_eq] at h
    simp only [isUp, decide_eq_false_iff_not]
    omega
  · rw [if_neg h]
    simpa using h

theorem mem_pyReplaceFuel {pat rep : Str} {c : Nat} :
    ∀ {fuel : Nat} {s : Str}, c ∈ pyReplaceFuel pat rep fuel s →
      c ∈ rep ∨ c ∈ s := by
  intro fuel
  induction fuel with
  | zero =>
    intro s hc
    cases s <;> rw [pyReplaceFuel] at hc <;> exact absurd hc (List.not_mem_nil c)
  | succ m ih =>
    intro s hc
    cases s with
    | nil =>
      rw [pyReplaceFuel] at hc
      exact absurd hc (List.not_mem_nil c)
    | cons a rest =>
      rw [pyReplaceFuel] at hc
      split at hc
      · rcases List.mem_append.mp hc with h | h
        · exact Or.inl h
        · rcases ih h with h2 | h2
          · exact Or.inl h2
          · exact Or.inr ((List.drop_sublist _ _).subset h2)
      · rcases List.mem_cons.mp hc with rfl | h
        · exact Or.inr (List.mem_cons_self _ _)
        · rcases ih h with h2 | h2
          · exact Or.inl h2
          · exact Or.inr (List.mem_cons_of_mem _ h2)

theorem mem_pyReplace {pat rep s : Str} {c : Nat} (hc : c ∈ pyReplace pat rep s) :
    c ∈ rep ∨ c ∈ s :=
  mem_pyReplaceFuel hc

theorem pyReplaceFuel_no_head {p0 : Nat} {pt rep : Str} :
    ∀ {fuel : Nat} {s : Str}, s.length ≤ fuel → p0 ∉ s →
      pyReplaceFuel (p0 :: pt) rep fuel s = s := by
  intro fuel
  induction fuel with
  | zero =>
    intro s hlen _
    rw [List.length_eq_zero.mp (Nat.le_zero.mp hlen)]
    rw [pyReplaceFuel]
  | succ m ih =>
    intro s hlen h
    cases s with
    | nil => rw [pyReplaceFuel]
    | cons a rest =>
      rw [pyReplaceFuel]
      rw [if_neg]
      · rw [ih (by simp only [List.length_cons] at hlen; omega)
          (fun hm => h (List.mem_cons_of_mem _ hm))]
      · rintro ⟨-, hpre⟩
        rw [List.isPrefixOf_iff_prefix] at hpre
        obtain ⟨rfl, -⟩ := List.cons_prefix_cons.mp hpre
        exact h (List.mem_cons_self _ _)

/-- `pyReplace` is the identity when the pattern head never occurs. -/
theorem pyReplace_no_head {p0 : Nat} {pt rep : Str} {s : Str} (h : p0 ∉ s) :
    pyReplace (p0 :: pt) rep s = s :=
  pyReplaceFuel_no_head (Nat.le_refl _) h

theorem splitOn_ne_nil (sep : Nat) : ∀ (s : Str), splitOn sep s ≠ [] := by
  intro s
  cases s with
  | nil => simp [splitOn]
  | cons c rest =>
    unfold splitOn
    split
    · simp
    · cases hsp : splitOn sep rest <;> simp

theorem splitOn_parts_no_sep {sep : Nat} :
    ∀ {s : Str} {p : Str}, p ∈ splitOn sep s → sep ∉ p := by
  intro s
  induction s with
  | nil =>
    intro p hp
    simp [splitOn] at hp
    subst hp
    exact List.not_mem_nil sep
  | cons c rest ih =>
    intro p hp
    unfold splitOn at hp
    split at hp
    · rcases List.mem_cons.mp hp with rfl | h
      · exact List.not_mem_nil sep
      · exact ih h
    · rename_i hcne
      cases hsp : splitOn sep rest with
      | nil => exact absurd hsp (splitOn_ne_nil sep rest)
      | cons p0 ps =>
        rw [hsp] at hp
        rcases List.mem_cons.mp hp with rfl | h
        · intro hm
          rcases List.mem_cons.mp hm with rfl | hm2
          · exact hcne rfl
          · exact ih (hsp ▸ List.mem_cons_self p0 ps) hm2
        · exact ih (hsp ▸ List.mem_cons_of_mem p0 h)

theorem mem_of_mem_splitOn {sep : Nat} :
    ∀ {s p : Str} {c : Nat}, p ∈ splitOn sep s → c ∈ p → c ∈ s := by
  intro s
  induction s with
  | nil =>
    intro p c hp hc
    simp [splitOn] at hp
    subst hp
    exact absurd hc (List.not_mem_nil c)
  | cons a rest ih =>
    intro p c hp hc
    unfold splitOn at hp
    split at hp
    · rcases List.mem_cons.mp hp with rfl | h
      · exact absurd hc (List.not_mem_nil c)
      · exact List.mem_cons_of_mem _ (ih h hc)
    · cases hsp : splitOn sep rest with
      | nil => exact absurd hsp (splitOn_ne_nil sep rest)
      | cons p0 ps =>
        rw [hsp] at hp
        rcases List.mem_cons.mp hp with rfl | h
        · rcases List.mem_cons.mp hc with rfl | h2
          · exact List.mem_cons_self _ _
          · exact List.mem_cons_of_mem _ (ih (hsp ▸ List.mem_cons_self p0 ps) h2)
        · exact List.mem_cons_of_mem _ (ih (hsp ▸ List.mem_cons_of_mem p0 h) hc)

theorem mem_joinSep {sep : Str} {c : Nat} :
    ∀ {parts : List Str}, c ∈ joinSep sep parts →
      c ∈ sep ∨ ∃ p ∈ parts, c ∈ p := by
  intro parts
  induction parts with
  | nil => intro h; rw [joinSep] at h; exact absurd h (List.not_mem_nil c)
  | cons p ps ih =>
    intro h
    cases ps with
    | nil =>
      rw [show joinSep sep [p] = p from rfl] at h
      exact Or.inr ⟨p, List.mem_cons_self _ _, h⟩
    | cons q ps2 =>
      rw [show joinSep sep (p :: q :: ps2) = p ++ sep ++ joinSep sep (q :: ps2) from rfl] at h
      rcases List.mem_append.mp h with h1 | h2
      · rcases List.mem_append.mp h1 with h3 | h4
        · exact Or.inr ⟨p, List.mem_cons_self _ _, h3⟩
        · exact Or.inl h4
      · rcases ih h2 with h3 | ⟨r, hr, hc⟩
        · exact Or.inl h3
        · exact Or.inr ⟨r, List.mem_cons_of_mem _ hr, hc⟩

theorem splitOn_cons (sep c : Nat) (rest : Str) :
    splitOn sep (c :: rest) =
      if c = sep then [] :: splitOn sep rest
      else
        match splitOn sep rest with
        | [] => [[c]]
        | p :: ps => (c :: p) :: ps := rfl

theorem splitOn_no_sep {sep : Nat} :
    ∀ {p : Str}, sep ∉ p → splitOn sep p = [p] := by
  intro p
  induction p with
  | nil => intro _; rfl
  | cons c rest ih =>
    intro h
    rw [splitOn_cons]
    rw [if_neg (fun hc => h (show sep ∈ c :: rest by
      rw [← hc]; exact List.mem_cons_self _ _))]
    rw [ih (fun hm => h (List.mem_cons_of_mem _ hm))]

theorem splitOn_append_sep {sep : Nat} :
    ∀ {p t : Str}, sep ∉ p → splitOn sep (p ++ sep :: t) = p :: splitOn sep t := by
  intro p
  induction p with
  | nil =>
    intro t _
    show splitOn sep (sep :: t) = [] :: splitOn sep t
    rw [splitOn_cons, if_pos rfl]
  | cons c rest ih =>
    intro t h
    show splitOn sep (c :: (rest ++ sep :: t)) = (c :: rest) :: splitOn sep t
    rw [splitOn_cons]
    rw [if_neg (fun hc => h (show sep ∈ c :: rest by
      rw [← hc]; exact List.mem_cons_self _ _))]
    rw [ih (fun hm => h (List.mem_cons_of_mem _ hm))]

theorem splitOn_joinSep_parts {sep : Nat} :
    ∀ {parts : List Str}, parts ≠ [] → (∀ p ∈ parts, sep ∉ p) →
      splitOn sep (joinSep [sep] parts) = parts := by
  intro parts
  induction parts with
  | nil => intro h _; exact absurd rfl h
  | cons p ps ih =>
    intro _ hfree
    cases ps with
    | nil =>
      rw [show joinSep [sep] [p] = p from rfl]
      exact splitOn_no_sep (hfree p (List.mem_cons_self _ _))
    | cons q ps2 =>
      rw [show joinSep [sep] (p :: q :: ps2)
        = p ++ [sep] ++ joinSep [sep] (q :: ps2) from rfl]
      rw [List.append_assoc, List.singleton_append]
      rw [splitOn_append_sep (hfree p (List.mem_cons_self _ _))]
      rw [ih (by simp) (fun r hr => hfree r (List.mem_cons_of_mem _ hr))]

theorem chain'_of_all_fst {α : Type} {R : α → α → Prop} :
    ∀ {l : List α}, (∀ a ∈ l, ∀ b, R a b) → l.Chain' R := by
  intro l
  induction l with
  | nil => intro _; exact List.chain'_nil
  | cons a t ih =>
    intro h
    rw [List.chain'_cons']
    exact ⟨fun y _ => h a (List.mem_cons_self _ _) y,
      ih fun b hb => h b (List.mem_cons_of_mem _ hb)⟩

theorem joinSep_ne_nil {sep : Str} {p : Str} {rest : List Str} (hp : p ≠ []) :
    joinSep sep (p :: rest) ≠ [] := by
  cases rest with
  | nil => exact hp
  | cons q ps =>
    rw [show joinSep sep (p :: q :: ps) = p ++ sep ++ joinSep sep (q :: ps) from rfl]
    simp [hp]

/-- Structure of a hyphen-join of non-empty hyphen-free parts: no leading,
trailing or doubled separator. -/
theorem joinSep_hyphen_props :
    ∀ (parts : List Str), (∀ p ∈ parts, p ≠ []) → (∀ p ∈ parts, 45 ∉ p) →
      (∀ a ∈ (joinSep [45] parts).head?, a ≠ 45) ∧
      (∀ a ∈ (joinSep [45] parts).getLast?, a ≠ 45) ∧
      (joinSep [45] parts).Chain' (fun a b => ¬(a = 45 ∧ b = 45)) := by
  intro parts
  induction parts with
  | nil =>
    intro _ _
    refine ⟨?_, ?_, List.chain'_nil⟩ <;> intro a ha <;> simp [joinSep] at ha
  | cons p ps ih =>
    intro hne hfree
    have hpne : p ≠ [] := hne p (List.mem_cons_self _ _)
    have hpf : 45 ∉ p := hfree p (List.mem_cons_self _ _)
    cases ps with
    | nil =>
      rw [show joinSep [45] [p] = p from rfl]
      refine ⟨?_, ?_, ?_⟩
      · intro a ha
        cases p with
        | nil => simp at ha
        | cons c t =>
          simp at ha
          subst ha
          exact fun hc => hpf (by rw [← hc]; exact List.mem_cons_self _ _)
      · intro a ha
        rw [Option.mem_def, List.getLast?_eq_some_iff] at ha
        obtain ⟨ys, hys⟩ := ha
        intro hc
        refine hpf ?_
        rw [hys, ← hc]
        exact List.mem_append_right ys (List.mem_cons_self _ _)
      · refine chain'_of_all_fst fun a ha b hab => hpf ?_
        rw [← hab.1]
        exact ha
    | cons q ps2 =>
      have hrest := ih (fun r hr => hne r (List.mem_cons_of_mem _ hr))
        (fun r hr => hfree r (List.mem_cons_of_mem _ hr))
      have hJne : joinSep [45] (q :: ps2) ≠ [] :=
        joinSep_ne_nil (hne q (List.mem_cons_of_mem _ (List.mem_cons_self _ _)))
      rw [show joinSep [45] (p :: q :: ps2)
        = p ++ [45] ++ joinSep [45] (q :: ps2) from rfl]
      rw [List.append_assoc, List.singleton_append]
      refine ⟨?_, ?_, ?_⟩
      · intro a ha
        cases p with
        | nil => exact absurd rfl hpne
        | cons c t =>
          rw [List.cons_append] at ha
          simp at ha
          subst ha
          exact fun hc => hpf (by rw [← hc]; exact List.mem_cons_self _ _)
      · intro a ha
        rw [Option.mem_def, List.getLast?_append] at ha
        have h2 : (45 :: joinSep [45] (q :: ps2)).getLast?
            = (joinSep [45] (q :: ps2)).getLast? := by
          rw [show (45 :: joinSep [45] (q :: ps2))
            = [45] ++ joinSep [45] (q :: ps2) from rfl]
          rw [List.getLast?_append]
          cases hgl : (joinSep [45] (q :: ps2)).getLast? with
          | none => exact absurd (List.getLast?_eq_none_iff.mp hgl) hJne
          | some x => rfl
        rw [h2] at ha
        cases hgl : (joinSep [45] (q :: ps2)).getLast? with
        | none => exact absurd (List.getLast?_eq_none_iff.mp hgl) hJne
        | some x =>
          rw [hgl] at ha
          simp at ha
          subst ha
          exact hrest.2.1 _ hgl
      · rw [List.chain'_append]
        refine ⟨chain'_of_all_fst fun a ha b hab => hpf (hab.1 ▸ ha), ?_, ?_⟩
        · rw [List.chain'_cons']
          refine ⟨?_, hrest.2.2⟩
          intro y hy hab
          exact hrest.1 y hy hab.2
        · intro x hx y hy
          intro hab
          rw [Option.mem_def, List.getLast?_eq_some_iff] at hx
          obtain ⟨ys, hys⟩ := hx
          refine hpf ?_
          rw [hys, ← hab.1]
          exact List.mem_append_right ys (List.mem_cons_self _ _)

/-- The intermediate filtered string of `create_slug` (after case-folding,
the two replacements and the non-alphanumeric strip). -/
def slugFiltered (location : Str) : Str :=
  (pyReplace (pstr " ") (pstr "-") (pyReplace (pstr ", ") (pstr "-") (lower location))).filter
    (fun c => isAlnum c || decide (c = 45))

theorem create_slug_eq (location : Str) :
    create_slug location
      = joinSep [45] ((splitOn 45 (slugFiltered location)).filter
          (fun p => decide (p ≠ []))) := rfl

theorem slugFiltered_chars {location : Str} :
    ∀ c ∈ slugFiltered location, isLow c = true ∨ isDigit c = true ∨ c = 45 := by
  intro c hc
  obtain ⟨hmem, hpred⟩ := List.mem_filter.mp hc
  by_cases h45 : c = 45
  · exact Or.inr (Or.inr h45)
  · have hup : isUp c = false := by
      rcases mem_pyReplace hmem with h | h
      · exact absurd (by simpa [pstr] using h) h45
      · rcases mem_pyReplace h with h2 | h2
        · exact absurd (by simpa [pstr] using h2) h45
        · obtain ⟨d, -, rfl⟩ := List.mem_map.mp h2
          exact isUp_toLow d
    simp only [isAlnum, hup, Bool.false_or, Bool.or_eq_true, decide_eq_true_eq] at hpred
    rcases hpred with hpred | hpred
    · rcases hpred with hpred | hpred
      · exact Or.inl hpred
      · exact Or.inr (Or.inl hpred)
    · exact absurd hpred h45

theorem isUp_false_of_isLow {c : Nat} (h : isLow c = true) : isUp c = false := by
  simp only [isLow, decide_eq_true_eq] at h
  simp only [isUp, decide_eq_false_iff_not]
  omega

theorem isUp_false_of_isDigit {c : Nat} (h : isDigit c = true) : isUp c = false := by
  simp only [isDigit, decide_eq_true_eq] at h
  simp only [isUp, decide_eq_false_iff_not]
  omega

/-- **C8 counterexample**: the lambda's `page_item_url` derivation
(lambda_function.py lines 277-279) does not filter non-alphanumerics nor
collapse hyphens: a location with two consecutive spaces yields a slug with
consecutive hyphens. -/
theorem C8_counterexample :
    lambda_page_item_url (pstr "x") (pstr "Denver  CO") = pstr "best-x-denver--co" ∧
    (pstr "--") <:+: lambda_page_item_url (pstr "x") (pstr "Denver  CO") :=
  ⟨by rfl, by decide⟩

/-- **C8 (amended)**: the slug derived by `create_slug` (the /generate
endpoint, app.py lines 136-138, and the one-off script) consists only of
lower-case alphanumerics and hyphens, contains no comma, no space, no
leading or trailing hyphen and no consecutive hyphens, and the derivation is
idempotent.  The lambda's cruder `page_item_url` derivation does not enjoy
these properties (see the counterexample). -/
theorem C8_create_slug_clean (location : Str) :
    (∀ c ∈ create_slug location, isLow c = true ∨ isDigit c = true ∨ c = 45) ∧
    44 ∉ create_slug location ∧
    32 ∉ create_slug location ∧
    (∀ a ∈ (create_slug location).head?, a ≠ 45) ∧
    (∀ a ∈ (create_slug location).getLast?, a ≠ 45) ∧
    (create_slug location).Chain' (fun a b => ¬(a = 45 ∧ b = 45)) ∧
    create_slug (create_slug location) = create_slug location := by
  have hLne : ∀ p ∈ (splitOn 45 (slugFiltered location)).filter
      (fun p => decide (p ≠ [])), p ≠ [] := by
    intro p hp
    have := (List.mem_filter.mp hp).2
    simpa using this
  have hLfree : ∀ p ∈ (splitOn 45 (slugFiltered location)).filter
      (fun p => decide (p ≠ [])), 45 ∉ p :=
    fun p hp => splitOn_parts_no_sep (List.mem_filter.mp hp).1
  have hprops := joinSep_hyphen_props _ hLne hLfree
  have hchars : ∀ c ∈ create_slug location,
      isLow c = true ∨ isDigit c = true ∨ c = 45 := by
    intro c hc
    rw [create_slug_eq] at hc
    rcases mem_joinSep hc with h | ⟨p, hp, hcp⟩
    · simp at h
      exact Or.inr (Or.inr h)
    · exact slugFiltered_chars c
        (mem_of_mem_splitOn (List.mem_filter.mp hp).1 hcp)
  have h44 : 44 ∉ create_slug location := by
    intro h
    rcases hchars 44 h with h2 | h2 | h2 <;> simp [isLow, isDigit] at h2
  have h32 : 32 ∉ create_slug location := by
    intro h
    rcases hchars 32 h with h2 | h2 | h2 <;> simp [isLow, isDigit] at h2
  have hlow : lower (create_slug location) = create_slug location := by
    have hid : ∀ c ∈ create_slug location, toLow c = c := by
      intro c hc
      have hup : isUp c = false := by
        rcases hchars c hc with h | h | h
        · exact isUp_false_of_isLow h
        · exact isUp_false_of_isDigit h
        · subst h; decide
      unfold toLow
      rw [if_neg (by simp [hup])]
    unfold lower
    exact (List.map_congr_left hid).trans (List.map_id _)
  have hrep1 : pyReplace (pstr ", ") (pstr "-") (create_slug location)
      = create_slug location := by
    rw [show pstr ", " = 44 :: [32] from rfl]
    exact pyReplace_no_head h44
  have hrep2 : pyReplace (pstr " ") (pstr "-") (create_slug location)
      = create_slug location := by
    rw [show pstr " " = 32 :: [] from rfl]
    exact pyReplace_no_head h32
  have hfilter : (create_slug location).filter
      (fun c => isAlnum c || decide (c = 45)) = create_slug location := by
    rw [List.filter_eq_self]
    intro a ha
    rcases hchars a ha with h | h | h
    · simp [isAlnum, h]
    · simp [isAlnum, h]
    · simp [h]
  have hsf : slugFiltered (create_slug location) = create_slug location := by
    unfold slugFiltered
    rw [hlow, hrep1, hrep2, hfilter]
  have hidem : create_slug (create_slug location) = create_slug location := by
    rw [create_slug_eq (create_slug location), hsf]
    by_cases hLnil : (splitOn 45 (slugFiltered location)).filter
        (fun p => decide (p ≠ [])) = []
    · rw [create_slug_eq location, hLnil]
      rfl
    · rw [create_slug_eq location]
      rw [splitOn_joinSep_parts hLnil hLfree]
      rw [List.filter_eq_self.mpr (by intro p hp; simpa using hLne p hp)]
  refine ⟨hchars, h44, h32, ?_, ?_, ?_, hidem⟩
  · rw [create_slug_eq]
    exact hprops.1
  · rw [create_slug_eq]
    exact hprops.2.1
  · rw [create_slug_eq]
    exact hprops.2.2

/-- Witness for C8 (amended): idempotence evaluated at `"Castle Rock, CO"`. -/
theorem C8_create_slug_clean_witness :
    create_slug (create_slug (pstr "Castle Rock, CO"))
      = create_slug (pstr "Castle Rock, CO") :=
  (C8_create_slug_clean (pstr "Castle Rock, CO")).2.2.2.2.2.2

/-!  ## Batched publishing (C2, C9, C10)

`DudaClient.create_dcm_rows` (duda_client.py, lines 69-119) returns normally
on HTTP 2xx and also on 4xx (logged partial success); it raises on HTTP 5xx
(`raise_for_status`) and on transport errors.  `publish_site` raises on any
non-2xx.  The HTTP layer is an oracle: one outcome per batch index. -/

/-- Outcome of one `create_dcm_rows` HTTP call. -/
inductive DudaOutcome where
  | http2xx
  | http4xx
  | http5xx
  | transportError
  deriving DecidableEq, Repr

/-- `create_dcm_rows` raises exactly on 5xx and transport errors. -/
def outcomeRaises : DudaOutcome → Bool
  | .http5xx => true
  | .transportError => true
  | _ => false

/-- Bookkeeping of `HubSpotDudaIntegration.create_pages`: sizes of the row
batches sent, the rows recorded as created, and the failed-batch report
entries `(batch_num, start_idx, end_idx)`. -/
structure BatchReport (α : Type) where
  calls : List Nat
  created_pages : List α
  failed_batches : List (Nat × Nat × Nat)
  deriving Repr, DecidableEq

/-- The batch loop of `HubSpotDudaIntegration.create_pages`
(lambda_function.py, lines 302-346): consecutive slices of `batch_size`
rows; a raising batch is appended to `failed_batches` and the loop
continues; a returning batch appends its rows to `created_pages`. -/
def create_pages_batches {α : Type} (rows : List α) (batch_size : Nat)
    (outcome : Nat → DudaOutcome) : BatchReport α :=
  (List.range ((rows.length + batch_size - 1) / batch_size)).foldl
    (fun rep batch_num =>
      let start_idx := batch_num * batch_size
      let end_idx := min (start_idx + batch_size) rows.length
      let batch_rows := (rows.drop start_idx).take (end_idx - start_idx)
      if outcomeRaises (outcome batch_num) then
        { rep with
            calls := rep.calls ++ [batch_rows.length],
            failed_batches := rep.failed_batches
              ++ [(batch_num + 1, start_idx, end_idx)] }
      else
        { rep with
            calls := rep.calls ++ [batch_rows.length],
            created_pages := rep.created_pages ++ batch_rows })
    ⟨[], [], []⟩

/-- **C2**: with 120 rows and batch size 50, exactly 3 row-creation calls are
issued with sizes 50, 50 and 20 in that order; an HTTP 5xx failure of the
middle batch is recorded in `failed_batches` as batch 2 (rows 50..100), the
third call is still made, and all 120 rows are attempted (the call sizes sum
to 120). -/
theorem C2_batch_partition (rows : List Str) (outcome : Nat → DudaOutcome)
    (hlen : rows.length = 120) (hmid : outcome 1 = DudaOutcome.http5xx) :
    (create_pages_batches rows 50 outcome).calls = [50, 50, 20] ∧
    (create_pages_batches rows 50 outcome).calls.length = 3 ∧
    (create_pages_batches rows 50 outcome).calls.sum = 120 ∧
    (2, 50, 100) ∈ (create_pages_batches rows 50 outcome).failed_batches := by
  have h1 : outcomeRaises (outcome 1) = true := by rw [hmid]; rfl
  unfold create_pages_batches
  rw [hlen]
  rw [show List.range ((120 + 50 - 1) / 50) = [0, 1, 2] from by decide]
  simp only [List.foldl]
  by_cases h0 : outcomeRaises (outcome 0) = true <;>
    by_cases h2 : outcomeRaises (outcome 2) = true <;>
      simp [h0, h1, h2, List.length_take, List.length_drop, hlen]

/-- Witness for C2 at a concrete row list and outcome oracle. -/
theorem C2_batch_partition_witness :
    (create_pages_batches ((List.range 120).map (fun _ => pstr "r")) 50
        (fun n => if n = 1 then DudaOutcome.http5xx else DudaOutcome.http2xx)).calls
      = [50, 50, 20] :=
  (C2_batch_partition ((List.range 120).map (fun _ => pstr "r"))
    (fun n => if n = 1 then DudaOutcome.http5xx else DudaOutcome.http2xx)
    (by simp) (by rfl)).1

/-!  The `/generate` endpoint (app.py `generate_pages`, lines 152-179): a
failing batch aborts with an HTTP 500; after all batches, `publish_site` is
called once and its failure is only logged as a warning. -/

/-- Observable calls of the publishing phase of `generate_pages`. -/
inductive AppCall where
  | createRows (size : Nat)
  | publishSite
  deriving DecidableEq, Repr

/-- Result of the publishing phase of `generate_pages`. -/
inductive AppResult where
  | httpError (batch_num : Nat)
  | success (pages_created : Nat)
  deriving DecidableEq, Repr

/-- The batch loop of `generate_pages` (app.py, lines 156-166): abort with
the failing 1-based batch number on the first raising batch. -/
def generate_pages_loop (nrows batch_size : Nat) (batchOk : Nat → Bool) :
    List Nat → List AppCall × Option Nat
  | [] => ([], none)
  | bn :: rest =>
      let start := bn * batch_size
      let e := min (start + batch_size) nrows
      let size := e - start
      if batchOk bn then
        let r := generate_pages_loop nrows batch_size batchOk rest
        (AppCall.createRows size :: r.1, r.2)
      else ([AppCall.createRows size], some (bn + 1))

/-- Publishing phase of `generate_pages` (app.py, lines 152-179): batches,
then one `publish_site` call whose failure does not change the success
result. -/
def generate_pages_publish (nrows batch_size : Nat) (batchOk : Nat → Bool)
    (publishOk : Bool) : List AppCall × AppResult :=
  match generate_pages_loop nrows batch_size batchOk
      (List.range ((nrows + batch_size - 1) / batch_size)) with
  | (calls, some bn) => (calls, .httpError bn)
  | (calls, none) =>
      let _ := publishOk
      (calls ++ [AppCall.publishSite], .success nrows)

theorem generate_pages_loop_no_publish (nrows batch_size : Nat)
    (batchOk : Nat → Bool) :
    ∀ bns : List Nat,
      AppCall.publishSite ∉ (generate_pages_loop nrows batch_size batchOk bns).1 := by
  intro bns
  induction bns with
  | nil => simp [generate_pages_loop]
  | cons bn rest ih =>
    unfold generate_pages_loop
    split
    · intro h
      rcases List.mem_cons.mp h with h2 | h2
      · cases h2
      · exact ih h2
    · intro h
      rcases List.mem_cons.mp h with h2 | h2
      · cases h2
      · exact absurd h2 (List.not_mem_nil _)

theorem generate_pages_loop_all_ok (nrows batch_size : Nat)
    (batchOk : Nat → Bool) :
    ∀ bns : List Nat, (∀ bn ∈ bns, batchOk bn = true) →
      (generate_pages_loop nrows batch_size batchOk bns).2 = none := by
  intro bns
  induction bns with
  | nil => intro _; rfl
  | cons bn rest ih =>
    intro h
    unfold generate_pages_loop
    rw [if_pos (h bn (List.mem_cons_self _ _))]
    exact ih fun b hb => h b (List.mem_cons_of_mem _ hb)

/-- **C9**: when every row-creation batch succeeds, the publish-site
operation is invoked exactly once per run, and the run reports success for
the content-creation phase regardless of whether that final publish call
fails (its failure is only logged). -/
theorem C9_publish_once_nonfatal (nrows batch_size : Nat)
    (batchOk : Nat → Bool) (publishOk : Bool)
    (hok : ∀ bn, batchOk bn = true) :
    (generate_pages_publish nrows batch_size batchOk publishOk).1.count
        AppCall.publishSite = 1 ∧
    (generate_pages_publish nrows batch_size batchOk publishOk).2
      = AppResult.success nrows := by
  have hnone := generate_pages_loop_all_ok nrows batch_size batchOk
    (List.range ((nrows + batch_size - 1) / batch_size)) (fun bn _ => hok bn)
  have hnp := generate_pages_loop_no_publish nrows batch_size batchOk
    (List.range ((nrows + batch_size - 1) / batch_size))
  unfold generate_pages_publish
  cases hloop : generate_pages_loop nrows batch_size batchOk
      (List.range ((nrows + batch_size - 1) / batch_size)) with
  | mk calls err =>
    rw [hloop] at hnone hnp
    simp only at hnone
    subst hnone
    refine ⟨?_, rfl⟩
    show (calls ++ [AppCall.publishSite]).count AppCall.publishSite = 1
    rw [List.count_append, List.count_eq_zero.mpr (by simpa using hnp)]
    rfl

/-- Witness for C9 at concrete inputs (publish failing). -/
theorem C9_publish_once_nonfatal_witness :
    (generate_pages_publish 120 50 (fun _ => true) false).1.count
        AppCall.publishSite = 1 ∧
    (generate_pages_publish 120 50 (fun _ => true) false).2
      = AppResult.success 120 :=
  C9_publish_once_nonfatal 120 50 (fun _ => true) false (fun _ => rfl)

/-!  ## Configuration attributes (C10)

`Config.__init__` (config.py, lines 15-51) sets exactly these instance
attributes; reading any other attribute raises `AttributeError`. -/

/-- The attributes assigned by `Config.__init__`. -/
def configAttrNames : List String :=
  ["HUBSPOT_API_KEY", "DUDA_API_USER", "DUDA_API_PASS", "OPENAI_API_KEY",
   "CONTENT_LENGTH", "CONTENT_TONE", "DEFAULT_NUM_PAGES", "OPENAI_MODEL",
   "LOGS_TABLE_NAME", "NOTIFICATION_EMAIL", "NOTIFICATION_EMAIL_FROM",
   "ENVIRONMENT", "LOG_LEVEL", "API_CALL_DELAY", "MAX_RETRIES", "RETRY_DELAY"]

/-- Python attribute access on a `Config` instance: the attribute value
(abstracted as `val`) when the attribute exists, `AttributeError`
otherwise. -/
def lookupNatAttr (name : String) (val : Nat) : Except Unit Nat :=
  if name ∈ configAttrNames then .ok val else .error ()

/-- `HubSpotDudaIntegration.create_pages` entry (lambda_function.py line 267
reads `self.config.DUDA_BATCH_SIZE` before building rows or issuing any
batch call); an `AttributeError` propagates out of `create_pages`. -/
def create_pages_run {α : Type} (rows : List α) (outcome : Nat → DudaOutcome)
    (val : Nat) : List Nat × Except String (BatchReport α) :=
  match lookupNatAttr "DUDA_BATCH_SIZE" val with
  | .error _ => ([], .error "AttributeError: DUDA_BATCH_SIZE")
  | .ok batch_size =>
      ((create_pages_batches rows batch_size outcome).calls,
        .ok (create_pages_batches rows batch_size outcome))

/-- The `/generate` endpoint (app.py line 153 reads
`config.DUDA_BATCH_SIZE` before the batch loop); an `AttributeError`
propagates as an unhandled server error. -/
def generate_pages_run (nrows : Nat) (batchOk : Nat → Bool)
    (publishOk : Bool) (val : Nat) : List AppCall × Except String AppResult :=
  match lookupNatAttr "DUDA_BATCH_SIZE" val with
  | .error _ => ([], .error "AttributeError: DUDA_BATCH_SIZE")
  | .ok batch_size =>
      ((generate_pages_publish nrows batch_size batchOk publishOk).1,
        .ok (generate_pages_publish nrows batch_size batchOk publishOk).2)

/-- The one-off script loop of `oneoff_template.py` (lines 175-195): a batch
exception aborts the run with `False`. -/
def oneoff_loop (nrows batch_size : Nat) (batchOk : Nat → Bool) :
    List Nat → List Nat × Bool
  | [] => ([], true)
  | bn :: rest =>
      let start := bn * batch_size
      let e := min (start + batch_size) nrows
      if batchOk bn then
        let r := oneoff_loop nrows batch_size batchOk rest
        ((e - start) :: r.1, r.2)
  else ([e - start], false)

/-- `create_landing_pages` of the one-off script: `config.DUDA_BATCH_SIZE`
is read inside the `try` (oneoff_template.py line 177) before any batch
call; the `AttributeError` is caught by the blanket `except`, so the run
returns `False` having issued no row-creation call. -/
def oneoff_run (nrows : Nat) (batchOk : Nat → Bool) (val : Nat) :
    List Nat × Bool :=
  match lookupNatAttr "DUDA_BATCH_SIZE" val with
  | .error _ => ([], false)
  | .ok batch_size =>
      oneoff_loop nrows batch_size batchOk
        (List.range ((nrows + batch_size - 1) / batch_size))

/-- **C10**: `Config.__init__` never defines `DUDA_BATCH_SIZE`, yet all
three publishing paths read it before sending any batch; hence each path
fails its attribute access with no row-creation call issued. -/
theorem C10_batch_size_attribute_missing :
    "DUDA_BATCH_SIZE" ∉ configAttrNames ∧
    (∀ (rows : List Str) (outcome : Nat → DudaOutcome) (val : Nat),
      create_pages_run rows outcome val
        = ([], .error "AttributeError: DUDA_BATCH_SIZE")) ∧
    (∀ (nrows : Nat) (batchOk : Nat → Bool) (publishOk : Bool) (val : Nat),
      generate_pages_run nrows batchOk publishOk val
        = ([], .error "AttributeError: DUDA_BATCH_SIZE")) ∧
    (∀ (nrows : Nat) (batchOk : Nat → Bool) (val : Nat),
      oneoff_run nrows batchOk val = ([], false)) := by
  have hmem : "DUDA_BATCH_SIZE" ∉ configAttrNames := by decide
  have hlook : ∀ val, lookupNatAttr "DUDA_BATCH_SIZE" val = .error () := by
    intro val
    unfold lookupNatAttr
    rw [if_neg hmem]
  refine ⟨hmem, ?_, ?_, ?_⟩
  · intro rows outcome val
    unfold create_pages_run
    rw [hlook]
  · intro nrows batchOk publishOk val
    unfold generate_pages_run
    rw [hlook]
  · intro nrows batchOk val
    unfold oneoff_run
    rw [hlook]

end LandingPage
